import Mathlib

/-!
Verification of the retrieval-augmented query core of the RAG-PDF-Query
application: chunking, embedding association, the in-memory vector index,
cosine-similarity retrieval, answer-request construction, and the session
state machine of `App` (FileUpload.tsx) with its timeout and failure handling.

JavaScript `number` values (IEEE float64) are modelled as real numbers;
all order/length/association properties proved below are independent of
floating-point rounding.
-/

namespace RagSpec

/-- Embedding vectors: the `number[]` arrays produced by the embedding service. -/
abbrev Vec := List ℝ

/-- Source `dotProduct(vecA, vecB)`:
`vecA.reduce((sum, val, i) => sum + val * vecB[i], 0)`, i.e. the sum of
pairwise products.  The recursion below computes the same real number
(addition on ℝ is associative/commutative); indexing past the end of `vecB`
never happens for the equal-dimension vectors the application stores. -/
def dotProduct : Vec → Vec → ℝ
  | a :: as, b :: bs => a * b + dotProduct as bs
  | _, _ => 0

/-- The sum `vec.reduce((sum, val) => sum + val * val, 0)` inside `magnitude`. -/
def sumSq : Vec → ℝ
  | [] => 0
  | x :: xs => x * x + sumSq xs

/-- Source `magnitude(vec)`: `Math.sqrt(vec.reduce((sum, val) => sum + val * val, 0))`. -/
noncomputable def magnitude (v : Vec) : ℝ := Real.sqrt (sumSq v)

/-- Source `cosineSimilarity(vecA, vecB)`:
returns `0` when either magnitude is `0`, otherwise
`dotProduct(vecA, vecB) / (magA * magB)`. -/
noncomputable def cosineSimilarity (vecA vecB : Vec) : ℝ :=
  if magnitude vecA = 0 ∨ magnitude vecB = 0 then 0
  else dotProduct vecA vecB / (magnitude vecA * magnitude vecB)

/-! ### Chunker (`chunkText` in FileUpload.tsx / App)

`chunkText` is `text.split(/\n\s*\n/).filter(p => p.trim().length > 10)`.
The regex split is modelled on `List Char`: a separator match is a literal
newline, followed by the greedy whitespace run `\s*` backtracked so that the
match ends at the last newline inside that run. -/

/-- The JavaScript `\s` class (and the characters `trim` strips), restricted to
the ASCII range; the Unicode space characters also matched by `\s` play no role
in the properties proved here. -/
def jsWS (c : Char) : Bool :=
  c == ' ' || c == '\t' || c == '\n' || c == '\r' || c == '\x0B' || c == '\x0C'

/-- Prepend a character to the first segment of a split result. -/
def consHead (c : Char) : List (List Char) → List (List Char)
  | [] => [[c]]
  | seg :: segs => (c :: seg) :: segs

/-- A decomposition `cs = p ++ r` where `p` is a nonempty run of whitespace
ending in a newline.  The invariants are carried in the subtype so that both
the termination argument of `splitBlank` and the reconstruction theorem can
use them. -/
def SepSplit (cs : List Char) :=
  {pr : List Char × List Char //
    cs = pr.1 ++ pr.2 ∧ (∀ c ∈ pr.1, jsWS c = true) ∧ ∃ q, pr.1 = q ++ ['\n']}

/-- Matches the `\s*\n` tail of the separator regex against a prefix of `cs`,
greedily: the returned prefix ends at the *last* newline of the leading
whitespace run (regex backtracking), `none` when that run has no newline. -/
def lastNlInWsRun : (cs : List Char) → Option (SepSplit cs)
  | [] => none
  | c :: rest =>
    if hws : jsWS c then
      match lastNlInWsRun rest with
      | some ⟨(p, r), hpr⟩ =>
        some ⟨(c :: p, r), by
          obtain ⟨he, hall, q, hq⟩ := hpr
          have hq' : p = q ++ ['\n'] := hq
          refine ⟨by simp [he], ?_, c :: q, by simp [hq']⟩
          intro d hd
          rcases List.mem_cons.mp hd with rfl | hd'
          · exact hws
          · exact hall d hd'⟩
      | none =>
        if hnl : c = '\n' then
          some ⟨([c], rest), by
            subst hnl
            exact ⟨rfl, by intro d hd; simp at hd; subst hd; exact hws, [], rfl⟩⟩
        else none
    else none

/-- The split of `text.split(/\n\s*\n/)` : leftmost-first, each separator being
`\n` followed by the greedy-backtracked `\s*\n` found by `lastNlInWsRun`. -/
def splitBlank (cs : List Char) : List (List Char) :=
  match cs with
  | [] => [[]]
  | c :: rest =>
    if c = '\n' then
      match lastNlInWsRun rest with
      | some pr => [] :: splitBlank pr.1.2
      | none => consHead c (splitBlank rest)
    else consHead c (splitBlank rest)
termination_by cs.length
decreasing_by
  · obtain ⟨he, -, q, hq⟩ := pr.2
    have h1 := congrArg List.length he
    have h2 := congrArg List.length hq
    simp only [List.length_append, List.length_cons, List.length_nil] at h1 h2
    simp only [List.length_cons]
    omega
  · simp only [List.length_cons]; omega
  · simp only [List.length_cons]; omega

/-- JavaScript `p.trim()` (both ends, `\s` class). -/
def trimChars (cs : List Char) : List Char :=
  ((cs.dropWhile jsWS).reverse.dropWhile jsWS).reverse

/-- `chunkText` at the character-list level: split, then
`filter(p => p.trim().length > 10)`. -/
def chunkList (cs : List Char) : List (List Char) :=
  (splitBlank cs).filter (fun p => 10 < (trimChars p).length)

/-- Source `chunkText(text)`:
`text.split(/\n\s*\n/).filter(p => p.trim().length > 10)`. -/
def chunkText (text : String) : List String :=
  (chunkList text.data).map (fun p => String.mk p)

/-- Shape of a separator consumed by the split: nonempty whitespace, starting
and ending with a literal newline (so it contains a blank-line boundary). -/
def SepOk (p : List Char) : Prop :=
  (∀ c ∈ p, jsWS c = true) ∧ p.head? = some '\n' ∧ (∃ q, p = q ++ ['\n']) ∧ 2 ≤ p.length

/-- Interleave segments with the separators that were consumed between them. -/
def joinSegs : List (List Char) → List (List Char) → List Char
  | [], _ => []
  | [s], _ => s
  | s :: ss, [] => s ++ joinSegs ss []
  | s :: ss, p :: ps => s ++ p ++ joinSegs ss ps

/-! ### Embedding client (`embedChunks` in geminiService) -/

/-- `VectorStoreItem` from types.ts: `{ content: string, embedding: number[] }`. -/
structure VectorStoreItem where
  content : String
  embedding : Vec

/-- The fan-out/join
`Promise.all(chunks.map(chunk => ai.models.embedContent({...})))` followed by
`responses.map(res => res.embeddings[0].values)`: each chunk is sent in one
independent request, any rejection rejects the whole batch.  The external
service is the oracle `embed`; its error value is the rejection reason. -/
def embedAll (embed : String → Except String Vec) : List String → Except String (List Vec)
  | [] => Except.ok []
  | c :: cs =>
    match embed c, embedAll embed cs with
    | Except.error e, _ => Except.error e
    | Except.ok _, Except.error e => Except.error e
    | Except.ok v, Except.ok vs => Except.ok (v :: vs)

/-- `chunks.map((chunk, i) => ({ content: chunk, embedding: embeddings[i] }))`,
with the running index made explicit for induction. -/
def pairFrom (embeddings : List Vec) : List String → ℕ → List VectorStoreItem
  | [], _ => []
  | c :: cs, i => { content := c, embedding := embeddings.getD i [] } :: pairFrom embeddings cs (i + 1)

def pairChunks (chunks : List String) (embeddings : List Vec) : List VectorStoreItem :=
  pairFrom embeddings chunks 0

def mismatchMsg : String := "Mismatch between number of chunks and embeddings returned."

def embedFailureMsg : String := "Failed to embed document chunks."

/-- The count check and positional re-association at the end of the `try`
block of `embedChunks`. -/
def associateEmbeddings (chunks : List String) (embeddings : List Vec) :
    Except String (List VectorStoreItem) :=
  if embeddings.length ≠ chunks.length then Except.error mismatchMsg
  else Except.ok (pairChunks chunks embeddings)

/-- The `try` block of `embedChunks`. -/
def embedChunksTry (embed : String → Except String Vec) (chunks : List String) :
    Except String (List VectorStoreItem) :=
  match embedAll embed chunks with
  | Except.error e => Except.error e
  | Except.ok embeddings => associateEmbeddings chunks embeddings

/-- Source `embedChunks(chunks)`: the `try` block, with the `catch` rethrowing
every failure as `new Error("Failed to embed document chunks.")`. -/
def embedChunks (embed : String → Except String Vec) (chunks : List String) :
    Except String (List VectorStoreItem) :=
  match embedChunksTry embed chunks with
  | Except.ok items => Except.ok items
  | Except.error _ => Except.error embedFailureMsg

/-- A deterministic always-succeeding embedding oracle, used in witnesses. -/
def stubEmbed : String → Except String Vec := fun _ => Except.ok [1]

/-! ### Vector index and retrieval engine (`queryDocument` steps 2–3) -/

/-- `{...item, similarity}` built by
`vectorStore.map(item => ({...item, similarity: cosineSimilarity(queryEmbedding, item.embedding)}))`.
The field `idx` records the original position in the store; it is model
bookkeeping used to state the stable-tie-break property and does not influence
the sort. -/
structure ScoredChunk where
  content : String
  embedding : Vec
  similarity : ℝ
  idx : ℕ

def dummyItem : VectorStoreItem := { content := "", embedding := [] }

noncomputable def dummyScored : ScoredChunk :=
  { content := "", embedding := [], similarity := 0, idx := 0 }

/-- `a` sorts no later than `b` under the comparator
`(a, b) => b.similarity - a.similarity` (descending by similarity). -/
def descR (a b : ScoredChunk) : Prop := b.similarity ≤ a.similarity

noncomputable instance : DecidableRel descR :=
  fun a b => Real.decidableLE b.similarity a.similarity

instance : IsTotal ScoredChunk descR :=
  ⟨fun a b => le_total b.similarity a.similarity⟩

instance : IsTrans ScoredChunk descR :=
  ⟨fun _ _ _ h1 h2 => le_trans h2 h1⟩

/-- Strict descending order with ties resolved by original position: the order
a stable descending sort realises on a list with increasing `idx`. -/
def rlex (a b : ScoredChunk) : Prop :=
  b.similarity < a.similarity ∨ (a.similarity = b.similarity ∧ a.idx < b.idx)

/-- Scoring map of `queryDocument` step 2, with the running original index. -/
noncomputable def scoreFrom (qe : Vec) : List VectorStoreItem → ℕ → List ScoredChunk
  | [], _ => []
  | item :: rest, i =>
    { content := item.content, embedding := item.embedding,
      similarity := cosineSimilarity qe item.embedding, idx := i } :: scoreFrom qe rest (i + 1)

noncomputable def scoreChunks (qe : Vec) (store : List VectorStoreItem) : List ScoredChunk :=
  scoreFrom qe store 0

/-- `scoredChunks.sort((a, b) => b.similarity - a.similarity)`.
`Array.prototype.sort` is stable (ECMAScript 2019), and a stable sort by a
total preorder is uniquely determined, so it is modelled by insertion sort
with the descending comparator. -/
noncomputable def sortScored (l : List ScoredChunk) : List ScoredChunk :=
  List.insertionSort descR l

/-- `const topK = 5`. -/
def topK : ℕ := 5

/-- Steps 2–3 of `queryDocument`:
`scoredChunks.sort(...).slice(0, topK).map(chunk => chunk.content)`. -/
noncomputable def retrieveTop (qe : Vec) (store : List VectorStoreItem) : List String :=
  ((sortScored (scoreChunks qe store)).take topK).map (fun c => c.content)

def contextSep : String := "\n\n---\n\n"

/-- `const context = relevantChunks.join('\n\n---\n\n')`. -/
noncomputable def buildContext (qe : Vec) (store : List VectorStoreItem) : String :=
  String.intercalate contextSep (retrieveTop qe store)

/-! ### Answer synthesizer (`queryDocument` steps 4–5) -/

/-- One element of the `contents` array sent to `generateContent`: either a
`{ text: ... }` part or an `{ inlineData: { mimeType, data } }` part. -/
inductive ContentPart
  | text (t : String)
  | inlineData (mimeType : String) (data : String)
deriving Repr, DecidableEq

/-- The request assembled in step 5: ordered parts plus the sampling
configuration `{ temperature: 0.1, topP: 0.9 }` (floats modelled as rationals). -/
structure GenRequest where
  parts : List ContentPart
  temperature : ℚ
  topP : ℚ

/-- The grounding prompt template of step 4, with `${context}` interpolated. -/
def promptFor (context : String) : String :=
  "You are an expert AI assistant specializing in analyzing documents. Your task is to answer the user's question based *exclusively* on the provided context and images from a PDF document.\n\nAnalyze the following document context and answer the user's question. Do not use any external knowledge. If the answer cannot be found in the provided context, state that clearly and concisely.\n\n--- DOCUMENT CONTEXT START ---\n"
    ++ context ++
    "\n--- DOCUMENT CONTEXT END ---\n\nThe document also includes the document pages as images. Refer to them if the text is unclear or if the question relates to visual elements.\n"

/-- JavaScript `String.prototype.split(',')` on a character list. -/
def splitOnComma (cs : List Char) : List (List Char) :=
  match cs with
  | [] => [[]]
  | c :: rest =>
    if c = ',' then [] :: splitOnComma rest
    else consHead c (splitOnComma rest)

/-- `dataUrl.split(',')[1]`, the payload forwarded for one page image.  A
data URL always contains a comma; indexing `[1]` of a comma-free string is
`undefined` in JavaScript and is modelled by the empty default. -/
def strippedPayload (dataUrl : String) : String :=
  String.mk ((splitOnComma dataUrl.data).getD 1 [])

/-- `{ inlineData: { mimeType: 'image/jpeg', data: dataUrl.split(',')[1] } }`. -/
def imagePart (dataUrl : String) : ContentPart :=
  ContentPart.inlineData "image/jpeg" (strippedPayload dataUrl)

def questionText (query : String) : String := "--- USER QUESTION --- \n" ++ query

/-- The full request of `queryDocument` steps 4–5: prompt text, then all page
images in order, then the literal user question, with `temperature: 0.1`,
`topP: 0.9`. -/
noncomputable def buildGenRequest (query : String) (store : List VectorStoreItem)
    (images : List String) (qe : Vec) : GenRequest :=
  { parts := ContentPart.text (promptFor (buildContext qe store))
      :: (images.map imagePart ++ [ContentPart.text (questionText query)]),
    temperature := 1 / 10,
    topP := 9 / 10 }

/-! ### Session state machine (`App` in FileUpload.tsx) -/

/-- The lifecycle states of the `status` React state. -/
inductive Status
  | idle
  | parsing
  | indexing
  | ready
  | querying
deriving DecidableEq, Repr

inductive Sender
  | user
  | ai
deriving DecidableEq, Repr

/-- `ChatMessage` from types.ts. -/
structure ChatMessage where
  sender : Sender
  text : String
deriving Repr

/-- The React state of `App`: `documentLoaded`, `documentTitle`, `pdfImages`,
`vectorStore`, `chatHistory`, `status`, `error`. -/
structure SessionState where
  documentLoaded : Bool
  documentTitle : String
  pdfImages : List String
  vectorStore : List VectorStoreItem
  chatHistory : List ChatMessage
  status : Status
  error : Option String

/-- `resetState()` target / initial React state. -/
def initialState : SessionState :=
  { documentLoaded := false, documentTitle := "", pdfImages := [], vectorStore := [],
    chatHistory := [], status := Status.idle, error := none }

/-- A session holding one indexed chunk in the `ready` state, for witnesses. -/
def readyState : SessionState :=
  { documentLoaded := true, documentTitle := "doc", pdfImages := [],
    vectorStore := [VectorStoreItem.mk "a" [1]], chatHistory := [],
    status := Status.ready, error := none }

def noContentMsg : String := "No text provided or text is too short."

def textAckMsg : String :=
  "The provided text has been processed and indexed. You can now ask questions about its content."

/-- `processAndIndexText(text)`: set `indexing`, chunk, fail to `idle` with a
message when no chunk survives or when `embedChunks` rejects, otherwise
populate the store and transition to `ready` with the acknowledgment
message. -/
def processAndIndexText (embed : String → Except String Vec) (text : String)
    (s : SessionState) : SessionState :=
  let s0 := { s with status := Status.indexing, error := none }
  let textChunks := chunkText text
  if textChunks.isEmpty then
    { s0 with error := some noContentMsg, status := Status.idle }
  else
    match embedChunks embed textChunks with
    | Except.error msg => { s0 with error := some msg, status := Status.idle }
    | Except.ok items =>
      { s0 with
        vectorStore := items, status := Status.ready, documentLoaded := true,
        chatHistory := [ChatMessage.mk Sender.ai textAckMsg] }

def fallbackApology : String :=
  "Sorry, I encountered an error trying to answer your question. Please try again."

def queryErrorNotice : String := "An error occurred while querying the Gemini API."

/-- `handleQuerySubmit(query)`: rejected unless the store is nonempty and the
status is `ready`; otherwise append the user message, and depending on the
`queryDocument` outcome append the answer or the fallback apology (recording
the error notice), finally returning to `ready`. -/
def handleQuerySubmit (query : String) (result : Except String String)
    (s : SessionState) : SessionState :=
  if s.vectorStore.length = 0 ∨ s.status ≠ Status.ready then s
  else
    let s1 := { s with
      status := Status.querying, error := none,
      chatHistory := s.chatHistory ++ [ChatMessage.mk Sender.user query] }
    match result with
    | Except.ok answer =>
      { s1 with
        chatHistory := s1.chatHistory ++ [ChatMessage.mk Sender.ai answer],
        status := Status.ready }
    | Except.error _ =>
      { s1 with
        chatHistory := s1.chatHistory ++ [ChatMessage.mk Sender.ai fallbackApology],
        error := some queryErrorNotice, status := Status.ready }

def timeoutMsg : String := "Processing timed out. The PDF might be too large or complex."

def pdfAckMsg (fileName : String) : String :=
  "Document \"" ++ fileName ++ "\" has been processed and indexed. You can now ask questions about its content."

def applyAll (fs : List (SessionState → SessionState)) (s : SessionState) : SessionState :=
  fs.foldl (fun st f => f st) s

/-- The state commits performed, in order, by the `fileReader.onload` flow of
`processAndIndexPdf` on its success path: `setPdfImages(images)`,
`setStatus('indexing')`, `setVectorStore(embeddedChunks)`, `setStatus('ready')`,
`setDocumentLoaded(true)`, `setChatHistory([ack])`.  Nothing in the source
cancels this flow when the timeout promise wins the race. -/
def pdfCommitActions (fileName : String) (images : List String)
    (items : List VectorStoreItem) : List (SessionState → SessionState) :=
  [fun s => { s with pdfImages := images },
   fun s => { s with status := Status.indexing },
   fun s => { s with vectorStore := items },
   fun s => { s with status := Status.ready },
   fun s => { s with documentLoaded := true },
   fun s => { s with chatHistory := [ChatMessage.mk Sender.ai (pdfAckMsg fileName)] }]

/-- The `catch` branch of the `Promise.race` for the `"Timeout"` rejection:
`setError(timeout message)`, `setStatus('idle')`. -/
def timeoutCatchActions : List (SessionState → SessionState) :=
  [fun s => { s with error := some timeoutMsg },
   fun s => { s with status := Status.idle }]

/-- `processAndIndexPdf` when the 30 s timer fires while the extraction and
indexing flow is still running: entry commits `parsing`, the flow performs its
first `k` state commits before the timer fires, the catch branch of the lost
race runs, and then — the source has no cancellation — the flow performs its
remaining commits. -/
def runPdfTimeoutRace (fileName : String) (images : List String)
    (items : List VectorStoreItem) (k : ℕ) (s : SessionState) : SessionState :=
  let s0 := { s with status := Status.parsing, error := none }
  let acts := pdfCommitActions fileName images items
  applyAll (acts.drop k) (applyAll timeoutCatchActions (applyAll (acts.take k) s0))

theorem sumSq_eq_dotProduct_self (v : Vec) : sumSq v = dotProduct v v := by
  induction v with
  | nil => rfl
  | cons x xs ih => simp [sumSq, dotProduct, ih]

theorem dotProduct_self_nonneg (v : Vec) : 0 ≤ dotProduct v v := by
  induction v with
  | nil => simp [dotProduct]
  | cons x xs ih =>
    simp only [dotProduct]
    have := mul_self_nonneg x
    linarith

theorem sumSq_nonneg (v : Vec) : 0 ≤ sumSq v := by
  rw [sumSq_eq_dotProduct_self]; exact dotProduct_self_nonneg v

theorem magnitude_nonneg (v : Vec) : 0 ≤ magnitude v := Real.sqrt_nonneg _

theorem dotProduct_comm (a b : Vec) : dotProduct a b = dotProduct b a := by
  induction a generalizing b with
  | nil => cases b <;> rfl
  | cons x xs ih =>
    cases b with
    | nil => rfl
    | cons y ys => simp [dotProduct, ih, mul_comm]

/-- Arithmetic step of the Cauchy–Schwarz induction. -/
theorem cauchy_schwarz_step (x y A B D : ℝ) (hA : 0 ≤ A) (hB : 0 ≤ B)
    (hD : D ^ 2 ≤ A * B) : (x * y + D) ^ 2 ≤ (x * x + A) * (y * y + B) := by
  rcases eq_or_lt_of_le hA with hA0 | hApos
  · have hD0 : D = 0 := by nlinarith [sq_nonneg D]
    subst hD0
    have hx := mul_nonneg (mul_self_nonneg x) hB
    nlinarith [mul_self_nonneg y]
  · nlinarith [sq_nonneg (x * D - y * A),
      mul_nonneg (by positivity : (0:ℝ) ≤ x ^ 2 + A) (by nlinarith : (0:ℝ) ≤ A * B - D ^ 2)]

/-- Cauchy–Schwarz for the source's `dotProduct`, proved by induction. -/
theorem dotProduct_sq_le (a b : Vec) :
    dotProduct a b ^ 2 ≤ dotProduct a a * dotProduct b b := by
  induction a generalizing b with
  | nil => cases b <;> simp [dotProduct]
  | cons x xs ih =>
    cases b with
    | nil => simp [dotProduct, mul_nonneg (dotProduct_self_nonneg (x :: xs))]
    | cons y ys =>
      simp only [dotProduct]
      exact cauchy_schwarz_step x y _ _ _ (dotProduct_self_nonneg xs)
        (dotProduct_self_nonneg ys) (ih ys)

theorem abs_dotProduct_le (a b : Vec) :
    |dotProduct a b| ≤ magnitude a * magnitude b := by
  have h1 : magnitude a * magnitude b
      = Real.sqrt (dotProduct a a * dotProduct b b) := by
    rw [magnitude, magnitude, sumSq_eq_dotProduct_self, sumSq_eq_dotProduct_self,
      Real.sqrt_mul (dotProduct_self_nonneg a)]
  rw [h1, ← Real.sqrt_sq_eq_abs]
  exact Real.sqrt_le_sqrt (dotProduct_sq_le a b)

theorem magnitude_ne_zero_of_mem {v : Vec} {x : ℝ} (hx : x ∈ v) (hx0 : x ≠ 0) :
    magnitude v ≠ 0 := by
  have hpos : 0 < sumSq v := by
    induction v with
    | nil => simp at hx
    | cons y ys ih =>
      rcases List.mem_cons.mp hx with rfl | hmem
      · have : 0 < x * x := mul_self_pos.mpr hx0
        have := sumSq_nonneg ys
        simp only [sumSq]; linarith
      · have := ih hmem
        have : 0 < sumSq ys := this
        have hy : 0 ≤ y * y := mul_self_nonneg y
        simp only [sumSq]; linarith
  simp only [magnitude]
  exact ne_of_gt (Real.sqrt_pos.mpr hpos)

theorem magnitude_replicate_zero (n : ℕ) : magnitude (List.replicate n 0) = 0 := by
  have : sumSq (List.replicate n (0:ℝ)) = 0 := by
    induction n with
    | zero => rfl
    | succ m ih => simp [List.replicate, sumSq, ih]
  simp [magnitude, this]

theorem cosineSimilarity_bounds (a b : Vec) :
    -1 ≤ cosineSimilarity a b ∧ cosineSimilarity a b ≤ 1 := by
  by_cases h : magnitude a = 0 ∨ magnitude b = 0
  · rw [cosineSimilarity, if_pos h]; norm_num
  · rw [cosineSimilarity, if_neg h]
    push_neg at h
    have hpa : 0 < magnitude a := lt_of_le_of_ne (magnitude_nonneg a) (Ne.symm h.1)
    have hpb : 0 < magnitude b := lt_of_le_of_ne (magnitude_nonneg b) (Ne.symm h.2)
    have habs : |dotProduct a b / (magnitude a * magnitude b)| ≤ 1 := by
      rw [abs_div, abs_of_pos (mul_pos hpa hpb)]
      exact div_le_one_of_le₀ (abs_dotProduct_le a b) (le_of_lt (mul_pos hpa hpb))
    exact abs_le.mp habs

theorem cosineSimilarity_self {v : Vec} (h : magnitude v ≠ 0) :
    cosineSimilarity v v = 1 := by
  rw [cosineSimilarity, if_neg (by tauto)]
  have hmm : magnitude v * magnitude v = dotProduct v v := by
    rw [magnitude, Real.mul_self_sqrt (sumSq_nonneg v), sumSq_eq_dotProduct_self]
  rw [hmm]
  apply div_self
  intro h0
  apply h
  rw [magnitude, sumSq_eq_dotProduct_self, h0, Real.sqrt_zero]

/-- Claim C5: `cosineSimilarity` equals the normalized dot product when both magnitudes
are nonzero, is `0` when either magnitude is zero (in particular against the zero
vector), equals `1` on a nonzero vector paired with itself, is symmetric, and
always lies in `[-1, 1]`. -/
theorem cosineSimilarity_spec (a b : Vec) (_hlen : a.length = b.length) :
    (magnitude a ≠ 0 → magnitude b ≠ 0 →
      cosineSimilarity a b = dotProduct a b / (magnitude a * magnitude b)) ∧
    (magnitude a = 0 ∨ magnitude b = 0 → cosineSimilarity a b = 0) ∧
    cosineSimilarity a (List.replicate b.length 0) = 0 ∧
    ((∃ x ∈ a, x ≠ 0) → cosineSimilarity a a = 1) ∧
    cosineSimilarity a b = cosineSimilarity b a ∧
    -1 ≤ cosineSimilarity a b ∧ cosineSimilarity a b ≤ 1 := by
  refine ⟨?_, ?_, ?_, ?_, ?_, ?_⟩
  · intro ha hb
    rw [cosineSimilarity, if_neg (by tauto)]
  · intro h
    rw [cosineSimilarity, if_pos h]
  · rw [cosineSimilarity, if_pos (Or.inr (magnitude_replicate_zero _))]
  · rintro ⟨x, hx, hx0⟩
    exact cosineSimilarity_self (magnitude_ne_zero_of_mem hx hx0)
  · by_cases h : magnitude a = 0 ∨ magnitude b = 0
    · rw [cosineSimilarity, cosineSimilarity, if_pos h, if_pos (Or.symm h)]
    · rw [cosineSimilarity, cosineSimilarity, if_neg h,
        if_neg (fun hh => h (Or.symm hh)), dotProduct_comm, mul_comm]
  · exact cosineSimilarity_bounds a b

/-- Witness for C5 at the concrete vectors `[1]` and `[1]`. -/
theorem cosineSimilarity_spec_witness :
    ([1] : Vec).length = ([1] : Vec).length ∧ cosineSimilarity [1] [1] = 1 := by
  refine ⟨rfl, ?_⟩
  have h := (cosineSimilarity_spec [1] [1] rfl).2.2.2.1
  exact h ⟨1, by simp, one_ne_zero⟩

/-! ### Chunker lemmas and Claim C4 -/

theorem consHead_ne_nil (c : Char) (L : List (List Char)) : consHead c L ≠ [] := by
  cases L <;> simp [consHead]

theorem consHead_length {L : List (List Char)} (c : Char) (h : L ≠ []) :
    (consHead c L).length = L.length := by
  cases L with
  | nil => exact absurd rfl h
  | cons s ss => rfl

theorem joinSegs_consHead (c : Char) {L : List (List Char)} (seps : List (List Char))
    (h : L ≠ []) : joinSegs (consHead c L) seps = c :: joinSegs L seps := by
  cases L with
  | nil => exact absurd rfl h
  | cons s ss =>
    cases ss with
    | nil => cases seps <;> rfl
    | cons s2 ss2 => cases seps <;> rfl

theorem joinSegs_nil_cons {L : List (List Char)} (p : List Char) (ps : List (List Char))
    (h : L ≠ []) : joinSegs ([] :: L) (p :: ps) = p ++ joinSegs L ps := by
  cases L with
  | nil => exact absurd rfl h
  | cons s ss => rfl

theorem splitBlank_nil : splitBlank [] = [[]] := by
  rw [splitBlank]

theorem splitBlank_cons_sep {rest : List Char} {pr : SepSplit rest}
    (heq : lastNlInWsRun rest = some pr) :
    splitBlank ('\n' :: rest) = [] :: splitBlank pr.1.2 := by
  rw [splitBlank, heq]
  simp

theorem splitBlank_cons_nosep {rest : List Char} (heq : lastNlInWsRun rest = none) :
    splitBlank ('\n' :: rest) = consHead '\n' (splitBlank rest) := by
  rw [splitBlank, heq]
  simp

theorem splitBlank_cons_other {c : Char} {rest : List Char} (hc : ¬c = '\n') :
    splitBlank (c :: rest) = consHead c (splitBlank rest) := by
  rw [splitBlank, if_neg hc]

theorem splitBlank_ne_nil (cs : List Char) : splitBlank cs ≠ [] := by
  induction cs using splitBlank.induct with
  | case1 => simp [splitBlank_nil]
  | case2 rest pr heq ih =>
    rw [splitBlank_cons_sep heq]
    simp
  | case3 rest heq ih =>
    rw [splitBlank_cons_nosep heq]
    exact consHead_ne_nil _ _
  | case4 c rest hc ih =>
    rw [splitBlank_cons_other hc]
    exact consHead_ne_nil _ _

/-- The split really is a split on blank-line boundaries: the input is exactly
the segments interleaved with separators, each separator a whitespace run that
starts and ends with a newline. -/
theorem splitBlank_reconstruct (cs : List Char) :
    ∃ seps, joinSegs (splitBlank cs) seps = cs ∧
      (splitBlank cs).length = seps.length + 1 ∧ ∀ p ∈ seps, SepOk p := by
  induction cs using splitBlank.induct with
  | case1 =>
    exact ⟨[], by rw [splitBlank_nil]; rfl, by rw [splitBlank_nil]; rfl, by simp⟩
  | case2 rest pr heq ih =>
    obtain ⟨seps', hjoin, hlen, hok⟩ := ih
    obtain ⟨he, hall, q, hq⟩ := pr.2
    refine ⟨('\n' :: pr.1.1) :: seps', ?_, ?_, ?_⟩
    · rw [splitBlank_cons_sep heq,
        joinSegs_nil_cons _ _ (splitBlank_ne_nil _), hjoin]
      simp [he]
    · rw [splitBlank_cons_sep heq]
      simp only [List.length_cons, hlen]
    · intro p hp
      rcases List.mem_cons.mp hp with rfl | hp'
      · refine ⟨?_, rfl, ⟨'\n' :: q, by simp [hq]⟩, ?_⟩
        · intro d hd
          rcases List.mem_cons.mp hd with rfl | hd'
          · decide
          · exact hall d hd'
        · have := congrArg List.length hq
          simp only [List.length_append, List.length_cons, List.length_nil] at this
          simp only [List.length_cons]
          omega
      · exact hok p hp'
  | case3 rest heq ih =>
    obtain ⟨seps', hjoin, hlen, hok⟩ := ih
    refine ⟨seps', ?_, ?_, hok⟩
    · rw [splitBlank_cons_nosep heq,
        joinSegs_consHead _ _ (splitBlank_ne_nil rest), hjoin]
    · rw [splitBlank_cons_nosep heq, consHead_length _ (splitBlank_ne_nil rest), hlen]
  | case4 c rest hc ih =>
    obtain ⟨seps', hjoin, hlen, hok⟩ := ih
    refine ⟨seps', ?_, ?_, hok⟩
    · rw [splitBlank_cons_other hc,
        joinSegs_consHead _ _ (splitBlank_ne_nil rest), hjoin]
    · rw [splitBlank_cons_other hc, consHead_length _ (splitBlank_ne_nil rest), hlen]

/-- Claim C4: the chunker splits on blank-line boundaries (one or more blank
lines separate paragraphs, witnessed by the reconstruction of the input from
segments and whitespace separators), keeps segments in source order (the chunk
list is a sublist of the segment list), every returned chunk has trimmed
length strictly greater than 10, a text all of whose segments trim to length
at most 10 yields zero chunks, and ingestion (`processAndIndexText`) treats
zero chunks as a terminal failure: lifecycle `idle`, the no-content message,
and no index populated. -/
theorem chunkText_spec (text : String) :
    (∀ c ∈ chunkText text, 10 < (trimChars c.data).length) ∧
    (chunkList text.data).Sublist (splitBlank text.data) ∧
    (∃ seps, joinSegs (splitBlank text.data) seps = text.data ∧
      (splitBlank text.data).length = seps.length + 1 ∧ ∀ p ∈ seps, SepOk p) ∧
    ((∀ p ∈ splitBlank text.data, (trimChars p).length ≤ 10) → chunkText text = []) ∧
    (∀ embed s, chunkText text = [] →
      processAndIndexText embed text s =
        { s with status := Status.idle, error := some noContentMsg }) := by
  refine ⟨?_, ?_, splitBlank_reconstruct _, ?_, ?_⟩
  · intro c hc
    obtain ⟨p, hp, rfl⟩ := List.mem_map.mp hc
    have := List.of_mem_filter hp
    simpa using this
  · exact List.filter_sublist _
  · intro h
    have : chunkList text.data = [] := by
      rw [chunkList, List.filter_eq_nil_iff]
      intro p hp
      simpa using Nat.not_lt.mpr (h p hp)
    simp [chunkText, this]
  · intro embed s h
    rw [processAndIndexText]
    simp only [h, List.isEmpty_nil, if_pos]

/-- Witness for C4 at the empty text. -/
theorem chunkText_spec_witness :
    (∀ p ∈ splitBlank ("" : String).data, (trimChars p).length ≤ 10) ∧
    chunkText "" = [] ∧
    processAndIndexText stubEmbed "" initialState =
      { initialState with status := Status.idle, error := some noContentMsg } := by
  have h : ∀ p ∈ splitBlank ("" : String).data, (trimChars p).length ≤ 10 := by
    intro p hp
    rw [show ("" : String).data = [] from rfl, splitBlank_nil] at hp
    simp only [List.mem_singleton] at hp
    subst hp
    decide
  have h2 := (chunkText_spec "").2.2.2.1 h
  exact ⟨h, h2, (chunkText_spec "").2.2.2.2 stubEmbed initialState h2⟩

/-! ### Embedding-client lemmas and Claims C2, C10 -/

theorem embedAll_ok_length {embed : String → Except String Vec} :
    ∀ {cs : List String} {vs : List Vec},
      embedAll embed cs = Except.ok vs → vs.length = cs.length := by
  intro cs
  induction cs with
  | nil => intro vs h; simp [embedAll] at h; simp [← h]
  | cons c cs ih =>
    intro vs h
    rw [embedAll] at h
    cases hc : embed c with
    | error e => rw [hc] at h; exact absurd h (by simp)
    | ok v =>
      rw [hc] at h
      cases hr : embedAll embed cs with
      | error e => rw [hr] at h; exact absurd h (by simp)
      | ok vs' =>
        rw [hr] at h
        cases h
        simp [ih hr]

theorem embedAll_ok_getD {embed : String → Except String Vec} :
    ∀ {cs : List String} {vs : List Vec}, embedAll embed cs = Except.ok vs →
      ∀ i, i < cs.length → embed (cs.getD i "") = Except.ok (vs.getD i []) := by
  intro cs
  induction cs with
  | nil => intro vs _ i hi; simp at hi
  | cons c cs ih =>
    intro vs h i hi
    rw [embedAll] at h
    cases hc : embed c with
    | error e => rw [hc] at h; exact absurd h (by simp)
    | ok v =>
      rw [hc] at h
      cases hr : embedAll embed cs with
      | error e => rw [hr] at h; exact absurd h (by simp)
      | ok vs' =>
        rw [hr] at h
        cases h
        cases i with
        | zero => simpa using hc
        | succ i' =>
          simp only [List.getD_cons_succ]
          exact ih hr i' (by simpa using hi)

theorem embedAll_error_of_mem {embed : String → Except String Vec} :
    ∀ {cs : List String} {c : String} {e : String}, c ∈ cs → embed c = Except.error e →
      ∃ e', embedAll embed cs = Except.error e' := by
  intro cs
  induction cs with
  | nil => intro c e hc; simp at hc
  | cons c0 cs ih =>
    intro c e hc he
    rcases List.mem_cons.mp hc with rfl | hc'
    · exact ⟨e, by rw [embedAll, he]⟩
    · cases hc0 : embed c0 with
      | error e0 => exact ⟨e0, by rw [embedAll, hc0]⟩
      | ok v =>
        obtain ⟨e', he'⟩ := ih hc' he
        exact ⟨e', by rw [embedAll, hc0, he']⟩

theorem pairFrom_length (es : List Vec) :
    ∀ (cs : List String) (i : ℕ), (pairFrom es cs i).length = cs.length := by
  intro cs
  induction cs with
  | nil => intro i; rfl
  | cons c cs ih => intro i; simp [pairFrom, ih]

theorem pairFrom_getD (es : List Vec) :
    ∀ (cs : List String) (i j : ℕ), j < cs.length →
      (pairFrom es cs i).getD j dummyItem =
        VectorStoreItem.mk (cs.getD j "") (es.getD (i + j) []) := by
  intro cs
  induction cs with
  | nil => intro i j hj; simp at hj
  | cons c cs ih =>
    intro i j hj
    cases j with
    | zero => simp [pairFrom, dummyItem]
    | succ j' =>
      simp only [pairFrom, List.getD_cons_succ]
      rw [ih (i + 1) j' (by simpa using hj), show i + 1 + j' = i + (j' + 1) from by omega]

/-- Claim C2: on success `embedChunks` returns one item per input chunk, the
i-th item pairing the i-th chunk with the embedding the service returned for
that very chunk (same order, positional association); failure of any single
underlying call rejects the whole batch with the generic embedding-failure
message and no items; and the count check inside the `try` block rejects any
embeddings list whose length disagrees with the chunk count with the mismatch
message. -/
theorem embedChunks_spec (embed : String → Except String Vec) (chunks : List String) :
    (∀ items, embedChunks embed chunks = Except.ok items →
      items.length = chunks.length ∧
      ∀ i, i < chunks.length →
        (items.getD i dummyItem).content = chunks.getD i "" ∧
        embed (chunks.getD i "") = Except.ok (items.getD i dummyItem).embedding) ∧
    ((∃ c ∈ chunks, ∃ e, embed c = Except.error e) →
      embedChunks embed chunks = Except.error embedFailureMsg) ∧
    (∀ embeddings : List Vec, embeddings.length ≠ chunks.length →
      associateEmbeddings chunks embeddings = Except.error mismatchMsg) := by
  refine ⟨?_, ?_, ?_⟩
  · intro items h
    rw [embedChunks] at h
    cases htry : embedChunksTry embed chunks with
    | error e => rw [htry] at h; exact absurd h (by simp)
    | ok items' =>
      rw [htry] at h
      cases h
      rw [embedChunksTry] at htry
      cases hall : embedAll embed chunks with
      | error e => rw [hall] at htry; exact absurd htry (by simp)
      | ok es =>
        rw [hall] at htry
        have hlen := embedAll_ok_length hall
        simp only [associateEmbeddings] at htry
        rw [if_neg (by omega)] at htry
        cases htry
        constructor
        · rw [pairChunks, pairFrom_length]
        · intro i hi
          rw [pairChunks, pairFrom_getD es chunks 0 i hi]
          exact ⟨rfl, by simpa using embedAll_ok_getD hall i hi⟩
  · rintro ⟨c, hc, e, he⟩
    obtain ⟨e', he'⟩ := embedAll_error_of_mem hc he
    rw [embedChunks, embedChunksTry, he']
  · intro es hes
    simp only [associateEmbeddings]
    rw [if_pos hes]

/-- Witness for C2: a one-chunk batch under the stub oracle. -/
theorem embedChunks_spec_witness :
    embedChunks stubEmbed ["hello"] = Except.ok [VectorStoreItem.mk "hello" [1]] ∧
    ([VectorStoreItem.mk "hello" [1]] : List VectorStoreItem).length = ["hello"].length :=
  ⟨rfl, ((embedChunks_spec stubEmbed ["hello"]).1 [VectorStoreItem.mk "hello" [1]] rfl).1⟩

/-- Claim C10: whenever every underlying embedding call succeeds, the
embeddings list has exactly one entry per chunk, so the count-mismatch branch
of `embedChunks` cannot fire: the `try` block returns the paired items. -/
theorem embedChunks_mismatch_unreachable (embed : String → Except String Vec)
    (chunks : List String) (es : List Vec) (h : embedAll embed chunks = Except.ok es) :
    es.length = chunks.length ∧
    embedChunksTry embed chunks = Except.ok (pairChunks chunks es) := by
  have hlen := embedAll_ok_length h
  refine ⟨hlen, ?_⟩
  rw [embedChunksTry, h]
  simp only [associateEmbeddings]
  rw [if_neg (by omega)]

/-- Witness for C10: a two-chunk batch under the stub oracle. -/
theorem embedChunks_mismatch_unreachable_witness :
    embedAll stubEmbed ["a", "bb"] = Except.ok [[1], [1]] ∧
    embedChunksTry stubEmbed ["a", "bb"] = Except.ok (pairChunks ["a", "bb"] [[1], [1]]) :=
  ⟨rfl, (embedChunks_mismatch_unreachable stubEmbed ["a", "bb"] [[1], [1]] rfl).2⟩

/-! ### Session state machine: Claims C7, C8, C1 -/

/-- Claim C7: a query submitted while the lifecycle is not `ready`, or while
the vector index is empty, is a no-op: the entire session state — lifecycle,
transcript, index, images, title, error — is returned unchanged. -/
theorem handleQuerySubmit_noop (query : String) (result : Except String String)
    (s : SessionState) (h : s.status ≠ Status.ready ∨ s.vectorStore = []) :
    handleQuerySubmit query result s = s := by
  rw [handleQuerySubmit, if_pos]
  rcases h with h | h
  · exact Or.inr h
  · exact Or.inl (by simp [h])

/-- Witness for C7 at the initial (idle) state. -/
theorem handleQuerySubmit_noop_witness :
    (initialState.status ≠ Status.ready ∨ initialState.vectorStore = []) ∧
    handleQuerySubmit "question" (Except.ok "answer") initialState = initialState :=
  ⟨Or.inl (by decide), handleQuerySubmit_noop "question" (Except.ok "answer") initialState
    (Or.inl (by decide))⟩

/-- Claim C8: when answer generation fails for a query submitted while
`ready` with a nonempty index, the session is not reset: the lifecycle ends at
`ready`, index, images, title and loaded flag are unchanged, the transcript
gains the user message followed by the constant apologetic fallback (never the
raw error text), and the separate error notice is recorded. -/
theorem handleQuerySubmit_failure_spec (query e : String) (s : SessionState)
    (hready : s.status = Status.ready) (hstore : s.vectorStore ≠ []) :
    (handleQuerySubmit query (Except.error e) s).status = Status.ready ∧
    (handleQuerySubmit query (Except.error e) s).vectorStore = s.vectorStore ∧
    (handleQuerySubmit query (Except.error e) s).pdfImages = s.pdfImages ∧
    (handleQuerySubmit query (Except.error e) s).documentTitle = s.documentTitle ∧
    (handleQuerySubmit query (Except.error e) s).documentLoaded = s.documentLoaded ∧
    (handleQuerySubmit query (Except.error e) s).chatHistory =
      s.chatHistory ++ [ChatMessage.mk Sender.user query, ChatMessage.mk Sender.ai fallbackApology] ∧
    (handleQuerySubmit query (Except.error e) s).error = some queryErrorNotice := by
  have hcond : ¬(s.vectorStore.length = 0 ∨ s.status ≠ Status.ready) := by
    push_neg
    exact ⟨fun h0 => hstore (List.length_eq_zero.mp h0), hready⟩
  rw [handleQuerySubmit, if_neg hcond]
  refine ⟨rfl, rfl, rfl, rfl, rfl, ?_, rfl⟩
  simp

/-- Witness for C8 at a concrete ready session. -/
theorem handleQuerySubmit_failure_spec_witness :
    readyState.status = Status.ready ∧ readyState.vectorStore ≠ [] ∧
    (handleQuerySubmit "why" (Except.error "boom") readyState).status = Status.ready ∧
    (handleQuerySubmit "why" (Except.error "boom") readyState).chatHistory =
      readyState.chatHistory ++
        [ChatMessage.mk Sender.user "why", ChatMessage.mk Sender.ai fallbackApology] := by
  have h1 : readyState.status = Status.ready := rfl
  have h2 : readyState.vectorStore ≠ [] := by
    simp [readyState, initialState]
  have h := handleQuerySubmit_failure_spec "why" "boom" readyState h1 h2
  exact ⟨h1, h2, h.1, h.2.2.2.2.2.1⟩

/-- Claim C1 exhibit (code bug): when the 30 s timer wins the race — here the
flow has committed the page images and the `indexing` status when the timer
fires, and its embedding join completes only afterwards — the uncancelled
flow commits the index, the `ready` status, the loaded flag and the
acknowledgment message over the timeout handling.  The session therefore does
NOT end idle with only the timeout message: the leaked partial state is
surfaced as usable, contradicting the claimed behaviour. -/
theorem processAndIndexPdf_timeout_leak :
    (runPdfTimeoutRace "big.pdf" ["data:image/jpeg;base64,QUJD"]
      [VectorStoreItem.mk "leaked chunk" [1]] 2 initialState).status = Status.ready ∧
    (runPdfTimeoutRace "big.pdf" ["data:image/jpeg;base64,QUJD"]
      [VectorStoreItem.mk "leaked chunk" [1]] 2 initialState).pdfImages =
      ["data:image/jpeg;base64,QUJD"] ∧
    (runPdfTimeoutRace "big.pdf" ["data:image/jpeg;base64,QUJD"]
      [VectorStoreItem.mk "leaked chunk" [1]] 2 initialState).vectorStore =
      [VectorStoreItem.mk "leaked chunk" [1]] ∧
    (runPdfTimeoutRace "big.pdf" ["data:image/jpeg;base64,QUJD"]
      [VectorStoreItem.mk "leaked chunk" [1]] 2 initialState).documentLoaded = true ∧
    (runPdfTimeoutRace "big.pdf" ["data:image/jpeg;base64,QUJD"]
      [VectorStoreItem.mk "leaked chunk" [1]] 2 initialState).error = some timeoutMsg :=
  ⟨rfl, rfl, rfl, rfl, rfl⟩

/-! ### Retrieval lemmas and Claims C3, C6 -/

theorem orderedInsert_rlex {x : ScoredChunk} :
    ∀ {l : List ScoredChunk}, l.Pairwise rlex → (∀ y ∈ l, x.idx < y.idx) →
      (List.orderedInsert descR x l).Pairwise rlex := by
  intro l
  induction l with
  | nil => intro _ _; simp [List.orderedInsert]
  | cons y ys ih =>
    intro hl hx
    rw [List.orderedInsert]
    by_cases h : descR x y
    · rw [if_pos h]
      refine List.Pairwise.cons ?_ hl
      intro z hz
      have h' : y.similarity ≤ x.similarity := h
      rcases List.mem_cons.mp hz with rfl | hz'
      · rcases lt_or_eq_of_le h' with hlt | heq
        · exact Or.inl hlt
        · exact Or.inr ⟨heq.symm, hx z (List.mem_cons_self _ _)⟩
      · have hyz := List.rel_of_pairwise_cons hl hz'
        rcases hyz with hlt | ⟨heq2, _⟩
        · exact Or.inl (lt_of_lt_of_le hlt h')
        · rcases lt_or_eq_of_le h' with hlt | heq
          · exact Or.inl (heq2 ▸ hlt)
          · exact Or.inr ⟨by rw [← heq, heq2], hx z hz⟩
    · rw [if_neg h]
      have hxy : x.similarity < y.similarity := lt_of_not_le h
      refine List.Pairwise.cons ?_ (ih (List.Pairwise.of_cons hl)
        (fun z hz => hx z (List.mem_cons_of_mem _ hz)))
      intro z hz
      rcases (List.mem_orderedInsert descR).mp hz with rfl | hz'
      · exact Or.inl hxy
      · exact List.rel_of_pairwise_cons hl hz'

/-- A stable descending insertion sort of a list with strictly increasing
original positions is pairwise in the descending-then-position order: ties
are broken by insertion order. -/
theorem insertionSort_rlex :
    ∀ {l : List ScoredChunk}, l.Pairwise (fun a b => a.idx < b.idx) →
      (List.insertionSort descR l).Pairwise rlex := by
  intro l
  induction l with
  | nil => intro _; simp [List.insertionSort]
  | cons x xs ih =>
    intro h
    rw [List.insertionSort]
    refine orderedInsert_rlex (ih (List.Pairwise.of_cons h)) ?_
    intro y hy
    rw [List.mem_insertionSort] at hy
    exact (List.pairwise_cons.mp h).1 y hy

theorem scoreFrom_length (qe : Vec) :
    ∀ (store : List VectorStoreItem) (i : ℕ), (scoreFrom qe store i).length = store.length := by
  intro store
  induction store with
  | nil => intro i; rfl
  | cons item rest ih => intro i; simp [scoreFrom, ih]

theorem scoreFrom_le_idx (qe : Vec) :
    ∀ (store : List VectorStoreItem) (i : ℕ) (y : ScoredChunk),
      y ∈ scoreFrom qe store i → i ≤ y.idx := by
  intro store
  induction store with
  | nil => intro i y hy; simp [scoreFrom] at hy
  | cons item rest ih =>
    intro i y hy
    rcases List.mem_cons.mp hy with rfl | hy'
    · exact le_refl _
    · exact le_trans (Nat.le_succ i) (ih (i + 1) y hy')

theorem scoreFrom_pairwise_idx (qe : Vec) :
    ∀ (store : List VectorStoreItem) (i : ℕ),
      (scoreFrom qe store i).Pairwise (fun a b => a.idx < b.idx) := by
  intro store
  induction store with
  | nil => intro i; simp [scoreFrom]
  | cons item rest ih =>
    intro i
    refine List.Pairwise.cons ?_ (ih (i + 1))
    intro y hy
    exact lt_of_lt_of_le (Nat.lt_succ_self i) (scoreFrom_le_idx qe rest (i + 1) y hy)

theorem scoreFrom_getD (qe : Vec) :
    ∀ (store : List VectorStoreItem) (i j : ℕ), j < store.length →
      (scoreFrom qe store i).getD j dummyScored =
        ScoredChunk.mk (store.getD j dummyItem).content (store.getD j dummyItem).embedding
          (cosineSimilarity qe (store.getD j dummyItem).embedding) (i + j) := by
  intro store
  induction store with
  | nil => intro i j hj; simp at hj
  | cons item rest ih =>
    intro i j hj
    cases j with
    | zero => simp [scoreFrom]
    | succ j' =>
      simp only [scoreFrom, List.getD_cons_succ]
      rw [ih (i + 1) j' (by simpa using hj), show i + 1 + j' = i + (j' + 1) from by omega]

theorem mem_scoreFrom (qe : Vec) :
    ∀ (store : List VectorStoreItem) (i : ℕ) (y : ScoredChunk), y ∈ scoreFrom qe store i →
      ∃ k, k < store.length ∧
        y = ScoredChunk.mk (store.getD k dummyItem).content (store.getD k dummyItem).embedding
          (cosineSimilarity qe (store.getD k dummyItem).embedding) (i + k) := by
  intro store
  induction store with
  | nil => intro i y hy; simp [scoreFrom] at hy
  | cons item rest ih =>
    intro i y hy
    rcases List.mem_cons.mp hy with rfl | hy'
    · exact ⟨0, by simp, by simp [scoreFrom]⟩
    · obtain ⟨k, hk, hyk⟩ := ih (i + 1) y hy'
      exact ⟨k + 1, by simpa using hk,
        by rw [hyk, show i + 1 + k = i + (k + 1) from by omega]; simp⟩

theorem scoreFrom_map_content (qe : Vec) :
    ∀ (store : List VectorStoreItem) (i : ℕ),
      (scoreFrom qe store i).map (fun z => z.content) = store.map (fun it => it.content) := by
  intro store
  induction store with
  | nil => intro i; rfl
  | cons item rest ih => intro i; simp [scoreFrom, ih]

/-- Claim C3: retrieval scores every stored passage by cosine similarity to
the query, sorts descending by similarity with ties broken by original
insertion order (stable sort), returns the first `k = 5` contents —
`min 5 N` of them, hence all `N` when `N < 5` (a permutation of the whole
store's contents in that case) — and the prompt context is the selected
contents joined with the separator `"\n\n---\n\n"`. -/
theorem retrieve_topK_spec (qe : Vec) (store : List VectorStoreItem) :
    (retrieveTop qe store).length = min topK store.length ∧
    (sortScored (scoreChunks qe store)).Pairwise rlex ∧
    List.Perm (sortScored (scoreChunks qe store)) (scoreChunks qe store) ∧
    retrieveTop qe store =
      ((sortScored (scoreChunks qe store)).take topK).map (fun z => z.content) ∧
    (∀ j, j < store.length →
      (scoreChunks qe store).getD j dummyScored =
        ScoredChunk.mk (store.getD j dummyItem).content (store.getD j dummyItem).embedding
          (cosineSimilarity qe (store.getD j dummyItem).embedding) j) ∧
    (store.length ≤ topK →
      List.Perm (retrieveTop qe store) (store.map (fun it => it.content))) ∧
    buildContext qe store = String.intercalate contextSep (retrieveTop qe store) := by
  have hperm : List.Perm (sortScored (scoreChunks qe store)) (scoreChunks qe store) :=
    List.perm_insertionSort descR _
  have hlen : (sortScored (scoreChunks qe store)).length = store.length := by
    rw [hperm.length_eq]
    exact scoreFrom_length qe store 0
  refine ⟨?_, insertionSort_rlex (scoreFrom_pairwise_idx qe store 0), hperm, rfl, ?_, ?_, rfl⟩
  · rw [retrieveTop, List.length_map, List.length_take, hlen]
  · intro j hj
    simpa using scoreFrom_getD qe store 0 j hj
  · intro hle
    rw [retrieveTop, List.take_of_length_le (by rw [hlen]; exact hle)]
    have hmap := hperm.map (fun z : ScoredChunk => z.content)
    simp only [scoreChunks] at hmap
    rw [scoreFrom_map_content qe store 0] at hmap
    exact hmap

/-- Witness for C3 at a one-item index. -/
theorem retrieve_topK_spec_witness :
    (0 : ℕ) < [VectorStoreItem.mk "a" [1]].length ∧
    [VectorStoreItem.mk "a" [1]].length ≤ topK ∧
    (scoreChunks [] [VectorStoreItem.mk "a" [1]]).getD 0 dummyScored =
      ScoredChunk.mk "a" [1] (cosineSimilarity [] [1]) 0 ∧
    List.Perm (retrieveTop [] [VectorStoreItem.mk "a" [1]])
      ([VectorStoreItem.mk "a" [1]].map (fun it => it.content)) := by
  have h := retrieve_topK_spec [] [VectorStoreItem.mk "a" [1]]
  refine ⟨by decide, by decide, ?_, h.2.2.2.2.2.1 (by decide)⟩
  simpa using h.2.2.2.2.1 0 (by decide)

/-- Claim C6: when the query embedding equals the (nonzero) embedding stored
for chunk `j` — e.g. an identity stub embedding and a query equal to that
chunk — the top of the sorted retrieval has similarity exactly 1, and if `j`
is the first index reaching similarity 1 (ties broken by insertion order),
the first retrieved content is chunk `j`'s content. -/
theorem roundtrip_self_retrieval (qe : Vec) (store : List VectorStoreItem) (j : ℕ)
    (hj : j < store.length)
    (hq : qe = (store.getD j dummyItem).embedding)
    (hmag : magnitude qe ≠ 0)
    (hfirst : ∀ i, i < j → cosineSimilarity qe ((store.getD i dummyItem).embedding) ≠ 1) :
    ((sortScored (scoreChunks qe store)).getD 0 dummyScored).similarity = 1 ∧
    (retrieveTop qe store).getD 0 "" = (store.getD j dummyItem).content := by
  have hsimJ : cosineSimilarity qe ((store.getD j dummyItem).embedding) = 1 := by
    rw [hq]
    exact cosineSimilarity_self (hq ▸ hmag)
  have hperm : List.Perm (sortScored (scoreChunks qe store)) (scoreChunks qe store) :=
    List.perm_insertionSort descR _
  have hpw : (sortScored (scoreChunks qe store)).Pairwise rlex :=
    insertionSort_rlex (scoreFrom_pairwise_idx qe store 0)
  have hlen : (sortScored (scoreChunks qe store)).length = store.length := by
    rw [hperm.length_eq]
    exact scoreFrom_length qe store 0
  have helemJ : (scoreChunks qe store).getD j dummyScored =
      ScoredChunk.mk (store.getD j dummyItem).content (store.getD j dummyItem).embedding
        (cosineSimilarity qe (store.getD j dummyItem).embedding) j := by
    simpa using scoreFrom_getD qe store 0 j hj
  have hmemJ : (scoreChunks qe store).getD j dummyScored ∈ scoreChunks qe store := by
    have hj' : j < (scoreChunks qe store).length := by
      simp only [scoreChunks]
      rw [scoreFrom_length qe store 0]
      exact hj
    rw [List.getD_eq_getElem _ _ hj']
    exact List.getElem_mem hj'
  obtain ⟨h0, t, hcons⟩ : ∃ h0 t, sortScored (scoreChunks qe store) = h0 :: t := by
    cases hs : sortScored (scoreChunks qe store) with
    | nil => rw [hs] at hlen; simp at hlen; omega
    | cons a b => exact ⟨a, b, rfl⟩
  have hsim_le : ∀ z ∈ scoreChunks qe store, z.similarity ≤ 1 := by
    intro z hz
    obtain ⟨k, hk, hzeq⟩ := mem_scoreFrom qe store 0 z hz
    rw [hzeq]
    exact (cosineSimilarity_bounds qe _).2
  have h0mem : h0 ∈ scoreChunks qe store :=
    hperm.mem_iff.mp (by rw [hcons]; exact List.mem_cons_self _ _)
  have hJmem_sorted : (scoreChunks qe store).getD j dummyScored ∈ h0 :: t := by
    rw [← hcons]
    exact hperm.mem_iff.mpr hmemJ
  have hpw' : (h0 :: t).Pairwise rlex := hcons ▸ hpw
  have h0sim : h0.similarity = 1 := by
    refine le_antisymm (hsim_le h0 h0mem) ?_
    rcases List.mem_cons.mp hJmem_sorted with hh | ht
    · rw [← hh, helemJ, hsimJ]
    · have hrel := List.rel_of_pairwise_cons hpw' ht
      rcases hrel with hlt | ⟨heq, _⟩
      · rw [helemJ] at hlt
        simp only [hsimJ] at hlt
        exact le_of_lt hlt
      · rw [heq, helemJ, hsimJ]
  obtain ⟨k0, hk0, h0eq⟩ := mem_scoreFrom qe store 0 h0 h0mem
  have h0idx : h0.idx = k0 := by rw [h0eq]; simp
  have hk0sim : cosineSimilarity qe ((store.getD k0 dummyItem).embedding) = 1 := by
    have := congrArg ScoredChunk.similarity h0eq
    rw [h0sim] at this
    exact this.symm
  have hk0ge : j ≤ k0 := by
    by_contra hlt
    push_neg at hlt
    exact hfirst k0 hlt hk0sim
  have hk0eq : k0 = j := by
    rcases eq_or_lt_of_le hk0ge with he | hlt2
    · exact he.symm
    · exfalso
      have hne2 : (scoreChunks qe store).getD j dummyScored ≠ h0 := by
        intro hcontra
        have hidx := congrArg ScoredChunk.idx hcontra
        rw [helemJ, h0idx] at hidx
        simp at hidx
        omega
      rcases List.mem_cons.mp hJmem_sorted with hh | ht
      · exact hne2 hh
      · have hrel := List.rel_of_pairwise_cons hpw' ht
        rcases hrel with hlt3 | ⟨_, hidx3⟩
        · rw [helemJ] at hlt3
          simp only [hsimJ, h0sim] at hlt3
          exact lt_irrefl 1 hlt3
        · rw [helemJ, h0idx] at hidx3
          simp at hidx3
          omega
  have h0content : h0.content = (store.getD j dummyItem).content := by
    rw [h0eq, hk0eq]
  constructor
  · rw [hcons]
    simpa using h0sim
  · rw [retrieveTop, hcons, show topK = 4 + 1 from rfl, List.take_succ_cons]
    simpa using h0content

/-- Witness for C6: a single stored chunk queried with its own embedding. -/
theorem roundtrip_self_retrieval_witness :
    magnitude ([1] : Vec) ≠ 0 ∧
    (retrieveTop [1] [VectorStoreItem.mk "a" [1]]).getD 0 "" = "a" := by
  have hmag : magnitude ([1] : Vec) ≠ 0 :=
    magnitude_ne_zero_of_mem (List.mem_singleton.mpr rfl) one_ne_zero
  have h := roundtrip_self_retrieval [1] [VectorStoreItem.mk "a" [1]] 0 (by decide) rfl hmag
    (by intro i hi; exact absurd hi (Nat.not_lt_zero i))
  exact ⟨hmag, by simpa using h.2⟩

/-! ### Answer-request lemmas and Claim C9 -/

theorem splitOnComma_no_comma : ∀ {cs : List Char}, ',' ∉ cs → splitOnComma cs = [cs] := by
  intro cs
  induction cs with
  | nil => intro _; rfl
  | cons c rest ih =>
    intro h
    rw [splitOnComma,
      if_neg (fun hc => h (by rw [hc]; exact List.mem_cons_self _ _)),
      ih (fun hm => h (List.mem_cons_of_mem _ hm))]
    rfl

theorem splitOnComma_first {pre post : List Char} (hpre : ',' ∉ pre) (hpost : ',' ∉ post) :
    splitOnComma (pre ++ ',' :: post) = [pre, post] := by
  induction pre with
  | nil =>
    rw [List.nil_append, splitOnComma, if_pos rfl, splitOnComma_no_comma hpost]
  | cons c pre' ih =>
    rw [List.cons_append, splitOnComma,
      if_neg (fun hc => hpre (by rw [hc]; exact List.mem_cons_self _ _)),
      ih (fun hm => hpre (List.mem_cons_of_mem _ hm))]
    rfl

theorem getD_map_lt {α β : Type} (f : α → β) :
    ∀ (l : List α) (i : ℕ) (d : β) (d' : α), i < l.length →
      (l.map f).getD i d = f (l.getD i d') := by
  intro l
  induction l with
  | nil => intro i d d' h; simp at h
  | cons a l ih =>
    intro i d d' h
    cases i with
    | zero => rfl
    | succ i' =>
      simp only [List.map_cons, List.getD_cons_succ]
      exact ih i' d d' (by simpa using h)

theorem getD_append_lt {α : Type} :
    ∀ (l l' : List α) (i : ℕ) (d : α), i < l.length →
      (l ++ l').getD i d = l.getD i d := by
  intro l
  induction l with
  | nil => intro l' i d h; simp at h
  | cons a l ih =>
    intro l' i d h
    cases i with
    | zero => rfl
    | succ i' =>
      simp only [List.cons_append, List.getD_cons_succ]
      exact ih l' i' d (by simpa using h)

theorem getD_append_length {α : Type} :
    ∀ (l : List α) (x d : α), (l ++ [x]).getD l.length d = x := by
  intro l
  induction l with
  | nil => intro x d; rfl
  | cons a l ih =>
    intro x d
    simp only [List.cons_append, List.length_cons, List.getD_cons_succ]
    exact ih x d

/-- Claim C9: the generative request is built with the parts in exactly this
order — the grounding prompt embedding the joined context, then every page
image as an inline `image/jpeg` payload equal to `dataUrl.split(',')[1]`
(i.e. the base64 payload after the first comma, the data-URL prefix
stripped), then the literal user question — configured with temperature 0.1
and top-p 0.9. -/
theorem buildGenRequest_spec (query : String) (store : List VectorStoreItem)
    (images : List String) (qe : Vec) :
    (buildGenRequest query store images qe).parts.length = images.length + 2 ∧
    (buildGenRequest query store images qe).parts.getD 0 (ContentPart.text "") =
      ContentPart.text (promptFor (buildContext qe store)) ∧
    (∀ i, i < images.length →
      (buildGenRequest query store images qe).parts.getD (i + 1) (ContentPart.text "") =
        ContentPart.inlineData "image/jpeg" (strippedPayload (images.getD i ""))) ∧
    (buildGenRequest query store images qe).parts.getD (images.length + 1)
      (ContentPart.text "") = ContentPart.text (questionText query) ∧
    (buildGenRequest query store images qe).temperature = 1 / 10 ∧
    (buildGenRequest query store images qe).topP = 9 / 10 ∧
    (∀ pre payload : List Char, ',' ∉ pre → ',' ∉ payload →
      strippedPayload (String.mk (pre ++ ',' :: payload)) = String.mk payload) := by
  refine ⟨?_, rfl, ?_, ?_, rfl, rfl, ?_⟩
  · simp only [buildGenRequest, List.length_cons, List.length_append, List.length_map,
      List.length_nil]
  · intro i hi
    simp only [buildGenRequest, List.getD_cons_succ]
    rw [getD_append_lt _ _ _ _ (by simpa using hi),
      getD_map_lt imagePart images i _ "" hi]
    rfl
  · simp only [buildGenRequest, List.getD_cons_succ]
    rw [show images.length = (images.map imagePart).length from (List.length_map _ _).symm,
      getD_append_length]
  · intro pre payload hpre hpost
    rw [strippedPayload, show (String.mk (pre ++ ',' :: payload)).data = pre ++ ',' :: payload
      from rfl, splitOnComma_first hpre hpost]
    rfl

/-- Witness for C9 at a concrete one-image request. -/
theorem buildGenRequest_spec_witness :
    (0 : ℕ) < (["data:image/jpeg;base64,QUJD"] : List String).length ∧
    (buildGenRequest "q" [] ["data:image/jpeg;base64,QUJD"] []).parts.getD 1
      (ContentPart.text "") =
      ContentPart.inlineData "image/jpeg" (strippedPayload "data:image/jpeg;base64,QUJD") ∧
    strippedPayload (String.mk ("data:image/jpeg;base64".data ++ ',' :: "QUJD".data)) =
      String.mk "QUJD".data := by
  refine ⟨by decide, ?_, ?_⟩
  · have h := (buildGenRequest_spec "q" [] ["data:image/jpeg;base64,QUJD"] []).2.2.1 0
      (by decide)
    simpa using h
  · exact (buildGenRequest_spec "q" [] [] []).2.2.2.2.2.2 "data:image/jpeg;base64".data
      "QUJD".data (by decide) (by decide)

end RagSpec
